import Mathlib

/-!
Verification development for the p-ickup/ML shared-ride matching engine.

The definitions below are a shallow embedding of the Python sources:
`src/RuleBased2/ruleMatching.py`, `src/RuleBased2/rider_data.py`,
`src/Algorithm/buckets.py`, `src/Algorithm/main.py` (the pure bucket loop
of `run`), and `src/RuleBased/buckets.py`.  Python strings become `String`
(ASCII scope, matching the repository's data), `datetime` values become
microseconds since 1970-01-01 as `Int`, float scores become exact fractions
(the score grid has spacing 1/20, far above float rounding error, so all
comparisons agree with CPython floats), a raised exception becomes `none`
in an `Option` result, and CPython's stable `list.sort(reverse=True)`
becomes a stable descending insertion sort (extensionally the unique
stable descending ordering).  `config3.py` is absent from the snapshot;
its two constants are taken from `src/Algorithm/config.py`
(`NUM_BAGS = 10`, `TERMINAL_MODE = "strict"`), the file the claims cite.
-/

namespace PickupML

/-! ## Python string primitives (ASCII scope) -/

/-- `str.upper` on one character: ASCII lowercase to uppercase. -/
def pyToUpper (c : Char) : Char :=
  if 97 ≤ c.toNat ∧ c.toNat ≤ 122 then Char.ofNat (c.toNat - 32) else c

/-- An ASCII digit (regex `\d`, per-char `str.isdigit`), phrased over
`Char.toNat` so that facts about abstract characters reduce to `omega`. -/
def pyIsDigit (c : Char) : Bool :=
  48 ≤ c.toNat && c.toNat ≤ 57

/-- Characters removed by `str.strip()` (ASCII whitespace). -/
def isPyWS (c : Char) : Bool :=
  c.toNat = 32 || c.toNat = 9 || c.toNat = 10 || c.toNat = 13 ||
  c.toNat = 11 || c.toNat = 12

/-- `str.strip()` over the character list. -/
def pyStripList (l : List Char) : List Char :=
  ((l.dropWhile isPyWS).reverse.dropWhile isPyWS).reverse

/-- `str.upper()` over the character list. -/
def pyUpperList (l : List Char) : List Char :=
  l.map pyToUpper

/-- `str.isdigit()` (ASCII digits). -/
def pyIsDigitStr (l : List Char) : Bool :=
  !l.isEmpty && l.all pyIsDigit

/-- `str(x)` applied to an optional string: Python renders `None` as `"None"`. -/
def pyStr (s : Option String) : String :=
  match s with
  | none => "None"
  | some t => t

/-- A regex word character `\w` (ASCII scope): letter, digit or underscore. -/
def isWordChar (c : Char) : Bool :=
  pyIsDigit c || (65 ≤ c.toNat && c.toNat ≤ 90) || (97 ≤ c.toNat && c.toNat ≤ 122) ||
  c.toNat = 95

/-- Scanner for `re.search(r"\b\d+\b", s)`: the leftmost maximal digit run
whose neighbours are not word characters.  `prevW` records whether the
previous character was a word character and `acc` holds the digits of the
current candidate run in reverse. -/
def scanDigitRun : List Char → Bool → List Char → Option (List Char)
  | [], _, acc => if acc.isEmpty then none else some acc.reverse
  | c :: rest, prevW, acc =>
    if pyIsDigit c then
      if !acc.isEmpty then scanDigitRun rest true (c :: acc)
      else if !prevW then scanDigitRun rest true [c]
      else scanDigitRun rest true []
    else
      if !acc.isEmpty && !isWordChar c then some acc.reverse
      else scanDigitRun rest (isWordChar c) []

/-- `s.startswith(prefix)`: first argument the string, second the prefix,
compared through `Char.toNat` (injective on `Char`). -/
def pyStartsWith : List Char → List Char → Bool
  | _, [] => true
  | [], _ :: _ => false
  | c :: s, p :: ps => if c.toNat = p.toNat then pyStartsWith s ps else false

/-- Python `pat in s` substring test. -/
def pySubstr (pat : List Char) : List Char → Bool
  | [] => pat.isEmpty
  | c :: rest => pyStartsWith (c :: rest) pat || pySubstr pat rest

/-- `re.fullmatch(r"[A-Z]", s)` succeeds. -/
def isSingleUpperLetter (l : List Char) : Bool :=
  match l with
  | [c] => 65 ≤ c.toNat && c.toNat ≤ 90
  | _ => false

/-! ## Datetime model: microseconds since 1970-01-01 00:00:00 -/

def usPerSecond : Int := 1000000
def usPerMinute : Int := 60000000
def usPerDay : Int := 86400000000

/-- Gregorian leap year. -/
def isLeapYear (y : Int) : Bool :=
  y % 4 == 0 && (y % 100 != 0 || y % 400 == 0)

def daysInMonth (y m : Int) : Int :=
  if m = 2 then (if isLeapYear y then 29 else 28)
  else if m = 4 ∨ m = 6 ∨ m = 9 ∨ m = 11 then 30
  else 31

/-- Days from civil date to days since 1970-01-01 (Hinnant's algorithm,
with floor division throughout). -/
def daysFromCivil (y m d : Int) : Int :=
  let y' := if m ≤ 2 then y - 1 else y
  let era := Int.fdiv y' 400
  let yoe := y' - era * 400
  let mp := Int.emod (m + 9) 12
  let doy := Int.fdiv (153 * mp + 2) 5 + d - 1
  let doe := yoe * 365 + Int.fdiv yoe 4 - Int.fdiv yoe 100 + doy
  era * 146097 + doe - 719468

/-- Inverse of `daysFromCivil`. -/
def civilFromDays (z : Int) : Int × Int × Int :=
  let z' := z + 719468
  let era := Int.fdiv z' 146097
  let doe := z' - era * 146097
  let yoe := Int.fdiv (doe - Int.fdiv doe 1460 + Int.fdiv doe 36524 - Int.fdiv doe 146096) 365
  let y := yoe + era * 400
  let doy := doe - (365 * yoe + Int.fdiv yoe 4 - Int.fdiv yoe 100)
  let mp := Int.fdiv (5 * doy + 2) 153
  let d := doy - Int.fdiv (153 * mp + 2) 5 + 1
  let m := mp + (if mp < 10 then 3 else -9)
  (if m ≤ 2 then y + 1 else y, m, d)

def digVal (c : Char) : Nat := c.toNat - 48

/-- Parse exactly two digits. -/
def parse2 : List Char → Option (Nat × List Char)
  | a :: b :: rest =>
    if pyIsDigit a && pyIsDigit b then some (digVal a * 10 + digVal b, rest) else none
  | _ => none

/-- Parse exactly four digits. -/
def parse4 : List Char → Option (Nat × List Char)
  | a :: b :: c :: d :: rest =>
    if pyIsDigit a && pyIsDigit b && pyIsDigit c && pyIsDigit d then
      some (((digVal a * 10 + digVal b) * 10 + digVal c) * 10 + digVal d, rest)
    else none
  | _ => none

def expectChar (c : Char) : List Char → Option (List Char)
  | x :: rest => if x == c then some rest else none
  | [] => none

/-- Fractional-second digits (1 to 6) to microseconds. -/
def parseFrac (l : List Char) : Option Nat :=
  if 1 ≤ l.length ∧ l.length ≤ 6 ∧ l.all pyIsDigit then
    some ((l.foldl (fun acc c => acc * 10 + digVal c) 0) * 10 ^ (6 - l.length))
  else none

/-- The optional `:SS[.ffffff]` tail of a time. -/
def parseTimeTail : List Char → Option (Nat × Nat)
  | [] => some (0, 0)
  | ':' :: rest =>
    match parse2 rest with
    | none => none
    | some (sec, rest2) =>
      match rest2 with
      | [] => some (sec, 0)
      | '.' :: frac => (parseFrac frac).map (fun u => (sec, u))
      | _ => none
  | _ => none

/-- `datetime.fromisoformat` on the `"YYYY-MM-DDTHH:MM[:SS[.ffffff]]"`
shapes the repository builds (`f"{r.date}T{r.earliest_time}"`); malformed
input, e.g. the literal string `"None"` in the time slot, yields `none`,
modelling the raised `ValueError`. -/
def fromisoformat (s : String) : Option Int := do
  let l := s.toList
  let (y, l) ← parse4 l
  let l ← expectChar '-' l
  let (mo, l) ← parse2 l
  let l ← expectChar '-' l
  let (d, l) ← parse2 l
  let l ← expectChar 'T' l
  let (h, l) ← parse2 l
  let l ← expectChar ':' l
  let (mi, l) ← parse2 l
  let (sec, micro) ← parseTimeTail l
  if 1 ≤ mo ∧ mo ≤ 12 ∧ 1 ≤ d ∧ (d : Int) ≤ daysInMonth (y : Int) (mo : Int) ∧
      h ≤ 23 ∧ mi ≤ 59 ∧ sec ≤ 59 then
    some (daysFromCivil (y : Int) (mo : Int) (d : Int) * usPerDay +
      (((h : Int) * 3600 + (mi : Int) * 60 + (sec : Int)) * usPerSecond + (micro : Int)))
  else none

def padLeft (w : Nat) (l : List Char) : List Char :=
  List.replicate (w - l.length) '0' ++ l

def natToChars (n : Nat) : List Char :=
  Nat.toDigits 10 n

/-- `datetime.isoformat()` for our microsecond timestamps. -/
def isoformatMicros (t : Int) : String :=
  let day := Int.fdiv t usPerDay
  let rem := (t - day * usPerDay).toNat
  let ymd := civilFromDays day
  let secs := rem / 1000000
  let micro := rem % 1000000
  let h := secs / 3600
  let mi := secs % 3600 / 60
  let s := secs % 60
  String.mk (padLeft 4 (natToChars ymd.1.toNat) ++ '-' ::
    padLeft 2 (natToChars ymd.2.1.toNat) ++ '-' ::
    padLeft 2 (natToChars ymd.2.2.toNat) ++ 'T' ::
    padLeft 2 (natToChars h) ++ ':' ::
    padLeft 2 (natToChars mi) ++ ':' ::
    padLeft 2 (natToChars s) ++
    (if micro == 0 then [] else '.' :: padLeft 6 (natToChars micro)))

/-- `timedelta / 2`: exact halving in microseconds, ties rounded to even
(CPython `timedelta.__truediv__`). -/
def halfTimedelta (d : Int) : Int :=
  let q := Int.fdiv d 2
  if d % 2 = 0 then q else (if q % 2 = 0 then q else q + 1)

/-- `dt.replace(second=0, microsecond=0)`: truncate to the whole minute. -/
def floorToMinute (t : Int) : Int :=
  t - Int.emod t usPerMinute

/-! Kernel-friendly `min`/`max` on `Int` (Mathlib's lattice `min`/`max`
do not reduce inside `decide`). -/

def intMax (a b : Int) : Int := if a ≤ b then b else a

def intMin (a b : Int) : Int := if a ≤ b then a else b

/-! ## Exact rational scores

Python's float scores are modelled by exact rational arithmetic on
unnormalized fractions (`Rat`'s kernel-irreducible operations cannot be
used under `decide`).  Every fraction built by the engine has a positive
denominator, so the cross-multiplication order below is the rational
order.  The engine's score grid has spacing `1/20` (minutes are integers,
the penalty is `0` or `500`, the bag bonus is `k/20` with `k ≤ 10`),
which dwarfs double rounding error, so all CPython float comparisons
agree with these exact ones. -/

structure Frac where
  num : Int
  den : Int
deriving DecidableEq, Repr

def fInt (n : Int) : Frac := ⟨n, 1⟩

def Frac.add (a b : Frac) : Frac := ⟨a.num * b.den + b.num * a.den, a.den * b.den⟩

def Frac.sub (a b : Frac) : Frac := ⟨a.num * b.den - b.num * a.den, a.den * b.den⟩

def Frac.mul (a b : Frac) : Frac := ⟨a.num * b.num, a.den * b.den⟩

/-- Division, used only with positive divisors in this development. -/
def Frac.div (a b : Frac) : Frac := ⟨a.num * b.den, a.den * b.num⟩

def Frac.le (a b : Frac) : Bool := decide (a.num * b.den ≤ b.num * a.den)

def Frac.lt (a b : Frac) : Bool := decide (a.num * b.den < b.num * a.den)

def fMin (a b : Frac) : Frac := if a.le b then a else b

def fMax (a b : Frac) : Frac := if a.le b then b else a

/-! ## Terminal and airport normalizers

`normalize_terminal` / `normalize_airport` are from
`src/RuleBased2/rider_data.py`; `RB_normalize_terminal` is
`_normalize_terminal` from `src/RuleBased/buckets.py`. -/

/-- Case chain of `normalize_terminal` on the stripped, uppercased
character list: first standalone digit run returned bare, then a single
`[A-Z]` letter, then the INTL family, else the input itself. -/
def normTermCore (term : List Char) : String :=
  match scanDigitRun term false [] with
  | some run => String.mk run
  | none =>
    if isSingleUpperLetter term then String.mk term
    else if pySubstr "INTL".toList term || pySubstr "INTERNATIONAL".toList term ||
        pySubstr "TBIT".toList term then "INTL"
    else String.mk term

/-- `rider_data.normalize_terminal`: falsy input gives `"UNKNOWN"`, else
`str(raw).strip().upper()` fed through the case chain above. -/
def normalize_terminal (raw : Option String) : String :=
  match raw with
  | none => "UNKNOWN"
  | some s =>
    if s = "" then "UNKNOWN"
    else normTermCore (pyUpperList (pyStripList s.toList))

/-- `rider_data.normalize_airport`. -/
def normalize_airport (raw : Option String) : String :=
  match raw with
  | none => "UNKNOWN"
  | some s => if s = "" then "UNKNOWN" else String.mk (pyUpperList (pyStripList s.toList))

/-- Case chain of `_normalize_terminal` (`src/RuleBased/buckets.py`) on
the uppercased, stripped character list. -/
def RBNormCore (t : List Char) : Option String :=
  if pyStartsWith t "TERMINAL ".toList ∧ pyIsDigitStr (t.drop 9) then
    some (String.mk ('T' :: t.drop 9))
  else if pyIsDigitStr t then some (String.mk ('T' :: t))
  else if pyStartsWith t ['T'] ∧ pyIsDigitStr (t.drop 1) then some (String.mk t)
  else some (String.mk t)

/-- `buckets._normalize_terminal` from `src/RuleBased/buckets.py` (note:
`None` passes through, `"TERMINAL <n>"` and bare digit strings become
`"T<n>"`, and there is no INTL mapping). -/
def RB_normalize_terminal (terminal : Option String) : Option String :=
  match terminal with
  | none => none
  | some s => RBNormCore (pyStripList (pyUpperList s.toList))

/-! ## Data model -/

/-- `rider_data.RiderLite` (dataclass; equality is field-wise as in Python). -/
structure RiderLite where
  user_id : String
  flight_id : Int
  flight_no : Option Int
  earliest_time : String
  latest_time : String
  airport : String
  to_airport : Bool
  date : String
  terminal : Option String
  matched : Bool
  school : String
  bags_no : Option Int
  bags_no_large : Option Int
deriving DecidableEq, Repr

/-- Default used only to give `List.getD` a value; indices are in range
wherever the Python code indexes. -/
def dRider : RiderLite :=
  ⟨"", 0, none, "", "", "", false, "", none, false, "", none, none⟩

/-- Row shape of a `Flights` record joined for `RiderData.fetch_riders`;
optional fields model `dict.get` misses. -/
structure FlightRow where
  user_id : String
  flight_id : Int
  flight_no : Option Int
  earliest_time : Option String
  latest_time : Option String
  airport : Option String
  to_airport : Option Bool
  date : Option String
  terminal : Option String
  matched : Option Bool
  bag_no : Option Int
  bag_no_large : Option Int
deriving DecidableEq, Repr

/-- The per-row construction loop of `RiderData.fetch_riders`
(`src/RuleBased2/rider_data.py` lines 101-126): rows whose school lookup
is falsy are skipped; every other row yields a `RiderLite`, with missing
time fields rendered by `str(...)` (so `None` becomes `"None"`), missing
airport normalized to `"UNKNOWN"`, and bag counts kept as-is. -/
def build_riders (flights : List FlightRow) (school_by_uid : String → Option String) :
    List RiderLite :=
  flights.filterMap fun f =>
    match school_by_uid f.user_id with
    | none => none
    | some school =>
      if school = "" then none
      else some
        { user_id := f.user_id
          flight_id := f.flight_id
          flight_no := f.flight_no
          earliest_time := pyStr f.earliest_time
          latest_time := pyStr f.latest_time
          airport := normalize_airport f.airport
          to_airport := f.to_airport.getD false
          date := pyStr f.date
          terminal := some (normalize_terminal f.terminal)
          matched := f.matched.getD false
          school := school
          bags_no := f.bag_no
          bags_no_large := f.bag_no_large }

/-! ## Configuration

`ruleMatching.py` imports `config3`, which is not in the repository
snapshot; the constants below are those of `src/Algorithm/config.py`
(cited by the claims): `NUM_BAGS = 10`, `TERMINAL_MODE = "strict"`. -/

def NUM_BAGS : Int := 10

def TERMINAL_MODE : String := "strict"

/-! ## Matching engine (`src/RuleBased2/ruleMatching.py`)

An `Option` result models a raised exception (`none`); floats become
exact rationals; `float("-inf")` becomes the inner `none` of a score. -/

/-- `ruleMatching.Match`. -/
structure Match where
  riders : List RiderLite
  suggested_time_iso : String
  terminal : Option String
  bucket_key : Option String
deriving DecidableEq, Repr

/-- `_interval`: parse a rider's window; `none` is the `ValueError` of
`datetime.fromisoformat` on a malformed date or time string. -/
def _interval (r : RiderLite) : Option (Int × Int) := do
  let s ← fromisoformat (r.date ++ "T" ++ r.earliest_time)
  let e ← fromisoformat (r.date ++ "T" ++ r.latest_time)
  pure (s, e)

/-- `_intersection`: `(start, end, minutes)` of a group, where
`minutes = int((end - start).total_seconds() // 60)` (floor). -/
def _intersection (members : List RiderLite) : Option (Int × Int × Int) := do
  let ivs ← members.mapM _interval
  match ivs with
  | [] => none
  | iv :: rest =>
    let start := rest.foldl (fun a p => intMax a p.1) iv.1
    let stop := rest.foldl (fun a p => intMin a p.2) iv.2
    pure (start, stop, Int.fdiv (stop - start) usPerMinute)

/-- `_bags_for`: `int(r.bags_no or 0) + int(r.bags_no_large or 0)`. -/
def _bags_for (r : RiderLite) : Int :=
  r.bags_no.getD 0 + r.bags_no_large.getD 0

/-- `_bags_total`. -/
def _bags_total (members : List RiderLite) : Int :=
  (members.map _bags_for).sum

/-- The coerced terminal list `[m.terminal or "" for m in members]`. -/
def coercedTerms (members : List RiderLite) : List String :=
  members.map fun m => m.terminal.getD ""

/-- `len(set(l)) <= 1`. -/
def allSame (l : List String) : Bool :=
  match l with
  | [] => true
  | x :: xs => xs.all (· = x)

/-- `_is_valid_group`: size in `[2,4]`, at least one whole minute of
overlap, bag capacity, and (strict mode) coerced terminals all equal.
`none` is a parse exception escaping from `_intersection`. -/
def _is_valid_group (members : List RiderLite) : Option Bool :=
  if ¬(2 ≤ members.length ∧ members.length ≤ 4) then some false
  else
    match _intersection members with
    | none => none
    | some (_, _, minutes) =>
      if minutes ≤ 0 then some false
      else if _bags_total members > NUM_BAGS then some false
      else if TERMINAL_MODE = "strict" ∧ ¬(allSame (coercedTerms members)) then some false
      else some true

/-- `_terminal_penalty` (0 in strict mode). -/
def _terminal_penalty (members : List RiderLite) : Frac :=
  if TERMINAL_MODE = "strict" then fInt 0
  else if allSame (coercedTerms members) then fInt 0 else Frac.mk 1 2

/-- `min(total/capacity, 1.0)` bag-fill bonus term, exact. -/
def bagBonus (members : List RiderLite) : Frac :=
  (Frac.mk 1 2).mul (fMin ((fInt (_bags_total members)).div (fMax (fInt 1) (fInt NUM_BAGS))) (fInt 1))

/-- `_score_group`: outer `none` is an exception, inner `none` is the
`float("-inf")` sentinel. -/
def _score_group (members : List RiderLite) (validate : Bool) : Option (Option Frac) :=
  let body : Option (Option Frac) :=
    match _intersection members with
    | none => none
    | some (_, _, minutes) =>
      if minutes ≤ 0 then some none
      else some (some (((fInt minutes).sub ((_terminal_penalty members).mul (fInt 1000))).add (bagBonus members)))
  if validate then
    match _is_valid_group members with
    | none => none
    | some false => some none
    | some true => body
  else body

/-- `score > best_score` where `none` is `-inf`. -/
def scoreGt (s b : Option Frac) : Bool :=
  match s, b with
  | none, _ => false
  | some _, none => true
  | some q, some p => Frac.lt p q

/-- Index pairs `(i, j)` with `i < j < n`, in enumeration order. -/
def pairIndices (n : Nat) : List (Nat × Nat) :=
  (List.range n).flatMap fun i => ((List.range n).drop (i + 1)).map fun j => (i, j)

/-- Score every pair in order; a valid score is kept, `-inf` is skipped, an
exception aborts. -/
def scoredPairsAux (riders : List RiderLite) : List (Nat × Nat) → Option (List (Nat × Nat × Frac))
  | [] => some []
  | (i, j) :: rest => do
    let s ← _score_group [riders.getD i dRider, riders.getD j dRider] true
    let tail ← scoredPairsAux riders rest
    match s with
    | none => pure tail
    | some q => pure ((i, j, q) :: tail)

/-- Stable insertion into a descending list: an incoming element passes an
earlier one only when its score is strictly greater, so elements of equal
score keep their original (enumeration) order — the behaviour of CPython's
stable `list.sort(key=score, reverse=True)`. -/
def insertDesc (x : Nat × Nat × Frac) : List (Nat × Nat × Frac) → List (Nat × Nat × Frac)
  | [] => [x]
  | y :: ys => if Frac.le y.2.2 x.2.2 then x :: y :: ys else y :: insertDesc x ys

/-- Stable descending sort by score. -/
def sortDesc : List (Nat × Nat × Frac) → List (Nat × Nat × Frac)
  | [] => []
  | x :: xs => insertDesc x (sortDesc xs)

/-- `_build_scored_pairs`. -/
def _build_scored_pairs (riders : List RiderLite) : Option (List (Nat × Nat × Frac)) :=
  (scoredPairsAux riders (pairIndices riders.length)).map sortDesc

/-- `_select_pairs` inner loop with its `used` set. -/
def selectAux : List (Nat × Nat × Frac) → List Nat → List (Nat × Nat)
  | [], _ => []
  | (i, j, _) :: rest, used =>
    if i ∈ used ∨ j ∈ used then selectAux rest used
    else (i, j) :: selectAux rest (i :: j :: used)

/-- `_select_pairs`. -/
def _select_pairs (pairs : List (Nat × Nat × Frac)) : List (Nat × Nat) :=
  selectAux pairs []

/-- The candidate fold of `_expand_group`: skip members already in the
group, score each trial insertion (validated), and keep the strictly best;
an exception aborts. -/
def bestAux (group : List RiderLite) :
    List RiderLite → Option Frac × Option RiderLite → Option (Option Frac × Option RiderLite)
  | [], st => some st
  | c :: cs, (bs, b) =>
    if c ∈ group then bestAux group cs (bs, b)
    else
      match _score_group (group ++ [c]) true with
      | none => none
      | some s => if scoreGt s bs then bestAux group cs (s, some c) else bestAux group cs (bs, b)

/-- The `while len(group) < 4` loop of `_expand_group`; fuel 4 suffices
because each pass adds exactly one member or stops. -/
def expandLoop (candidates : List RiderLite) : Nat → List RiderLite → Option (List RiderLite)
  | 0, group => some group
  | fuel + 1, group =>
    if group.length < 4 then
      match bestAux group candidates (none, none) with
      | none => none
      | some (_, none) => some group
      | some (_, some best) => expandLoop candidates fuel (group ++ [best])
    else some group

/-- `_expand_group`: note the candidate pool is the full bucket; only
current group members are excluded (inside `bestAux`). -/
def _expand_group (seed candidates : List RiderLite) : Option (List RiderLite) :=
  expandLoop candidates 4 seed

/-- `list.index` (first structural match). -/
def pyIndex (a : RiderLite) : List RiderLite → Nat
  | [] => 0
  | b :: bs => if a = b then 0 else pyIndex a bs + 1

/-- `_group_to_match`: midpoint of the intersection with seconds and
microseconds zeroed, consensus terminal over the coerced terminal list. -/
def _group_to_match (group : List RiderLite) (bucket_key : Option String) : Option Match :=
  match _intersection group with
  | none => none
  | some (start, stop, _) =>
    let mid := start + halfTimedelta (stop - start)
    let terminal :=
      match coercedTerms group with
      | [] => none
      | t :: ts => if ts.all (· = t) then some t else none
    some
      { riders := group
        suggested_time_iso := isoformatMicros (floorToMinute mid)
        terminal := terminal
        bucket_key := bucket_key }

/-- The accepted-pair loop of `match_bucket`: re-check the `used` set,
expand the seed pair over the whole bucket, mark every expanded member
used by its first index, and emit the `Match`. -/
def matchLoop (riders : List RiderLite) (bk : Option String) :
    List (Nat × Nat) → List Nat → List Match → Option (List Match × List Nat)
  | [], used, acc => some (acc, used)
  | (i, j) :: rest, used, acc =>
    if i ∈ used ∨ j ∈ used then matchLoop riders bk rest used acc
    else
      match _expand_group [riders.getD i dRider, riders.getD j dRider] riders with
      | none => none
      | some group =>
        let used' := used ++ group.map (fun g => pyIndex g riders)
        match _group_to_match group bk with
        | none => none
        | some m => matchLoop riders bk rest used' (acc ++ [m])

/-- `match_bucket`. -/
def match_bucket (riders : List RiderLite) (bucket_key : Option String) :
    Option (List Match × List RiderLite) :=
  if riders.length < 2 then some ([], riders)
  else
    match _build_scored_pairs riders with
    | none => none
    | some pairs =>
      if pairs.isEmpty then some ([], riders)
      else
        match matchLoop riders bucket_key (_select_pairs pairs) [] [] with
        | none => none
        | some (ms, used) =>
          some (ms, (riders.enum.filter (fun p => ¬ p.1 ∈ used)).map Prod.snd)

/-! ## Bucketizer and the pipeline loop -/

/-- Insertion-ordered key list (first occurrence wins), the key order of a
Python `defaultdict` filled in one pass. -/
def firstDedup {κ : Type} [DecidableEq κ] : List κ → List κ → List κ
  | _, [] => []
  | seen, k :: rest =>
    if k ∈ seen then firstDedup seen rest else k :: firstDedup (k :: seen) rest

/-- One-pass group-by: keys in first-occurrence order, each bucket holding
its riders in input order. -/
def groupByKey {α κ : Type} [DecidableEq κ] (key : α → κ) (l : List α) : List (κ × List α) :=
  (firstDedup [] (l.map key)).map fun k => (k, l.filter (fun r => key r = k))

/-- `buckets._bucket_label` (`src/Algorithm/buckets.py`). -/
def _bucket_label (r : RiderLite) : String :=
  (if r.to_airport then "TO " else "FROM ") ++ r.airport

/-- `buckets.make_buckets` (`src/Algorithm/buckets.py`). -/
def make_buckets (riders : List RiderLite) : List (String × List RiderLite) :=
  groupByKey _bucket_label riders

/-- Rider record built by `prepare_riders` in `src/RuleBased/buckets.py`
(a dict there; the fields it stores). -/
structure RBRider where
  flight_id : Int
  user_id : String
  airport : String
  to_airport : Bool
  terminal : Option String
  school : String
  earliest_ts : Int
  latest_ts : Int
deriving DecidableEq, Repr

/-- `buckets.partition_riders` (`src/RuleBased/buckets.py`): group by
`(to_airport, airport)`; the inner `{"all": ...}` wrapper is elided. -/
def partition_riders (riders : List RBRider) : List ((Bool × String) × List RBRider) :=
  groupByKey (fun r => (r.to_airport, r.airport)) riders

/-- The per-bucket loop of `run` (`src/Algorithm/main.py` lines 151-154):
no exception handling, so a failing bucket aborts the whole traversal. -/
def runLoop : List (String × List RiderLite) → List Match → List RiderLite →
    Option (List Match × List RiderLite)
  | [], ms, ls => some (ms, ls)
  | (name, rs) :: rest, ms, ls =>
    match match_bucket rs (some name) with
    | none => none
    | some (m2, l2) => runLoop rest (ms ++ m2) (ls ++ l2)

/-- The pure core of `run`: bucket the riders, then match bucket by
bucket, concatenating matches and leftovers. -/
def run_match (riders : List RiderLite) : Option (List Match × List RiderLite) :=
  runLoop (make_buckets riders) [] []

/-! ## Concrete fixtures used by the claim theorems -/

/-- A one-bucket rider: LAX outbound on 2025-06-01, terminal T1, school
UCLA, small bags only. -/
def mkRider (uid : String) (fid : Int) (e l : String) (bags : Int) : RiderLite :=
  { user_id := uid, flight_id := fid, flight_no := none, earliest_time := e,
    latest_time := l, airport := "LAX", to_airport := true, date := "2025-06-01",
    terminal := some "T1", matched := false, school := "UCLA",
    bags_no := some bags, bags_no_large := none }

def exR0 : RiderLite := mkRider "u1" 1 "09:00:00" "12:00:00" 3
def exR1 : RiderLite := mkRider "u2" 2 "09:00:00" "12:00:00" 3
def exR2 : RiderLite := mkRider "u3" 3 "09:00:00" "10:00:00" 3
def exR3 : RiderLite := mkRider "u4" 4 "09:00:00" "10:00:00" 3
def exR4 : RiderLite := mkRider "u5" 5 "09:00:00" "11:00:00" 3

/-- Five mutually valid riders: pair (u1,u2) is selected first and expands
with u5; pair (u3,u4) is selected next and its expansion draws u1 again,
because `_expand_group` excludes only current group members. -/
def exC1 : List RiderLite := [exR0, exR1, exR2, exR3, exR4]

def exM1 : Match :=
  { riders := [exR0, exR1, exR4], suggested_time_iso := "2025-06-01T10:00:00",
    terminal := some "T1", bucket_key := none }

def exM2 : Match :=
  { riders := [exR2, exR3, exR0], suggested_time_iso := "2025-06-01T09:30:00",
    terminal := some "T1", bucket_key := none }

/-- Example 1 of the spec: A(09:00-10:00, 2 bags), B(09:30-10:30, 3 bags). -/
def exA : RiderLite := mkRider "a" 11 "09:00:00" "10:00:00" 2
def exB : RiderLite := mkRider "b" 12 "09:30:00" "10:30:00" 3

/-- A pair whose intersection is one minute, so the midpoint falls on
second 30. -/
def exP : RiderLite := mkRider "p" 21 "09:00:00" "09:01:00" 1
def exQ : RiderLite := mkRider "q" 22 "09:00:00" "09:01:00" 1

/-- A pair overlapping by 30 seconds: `max earliest < min latest` holds
but the floored minute count is 0. -/
def exX : RiderLite := mkRider "x" 31 "09:00:00" "09:10:30" 1
def exY : RiderLite := mkRider "y" 32 "09:10:00" "09:20:00" 1

/-- Two buckets: (TO LAX) matches cleanly, (TO SFO) holds a rider whose
earliest time is the defaulted string `"None"`. -/
def exG1 : RiderLite := mkRider "g1" 41 "09:00:00" "10:00:00" 2
def exG2 : RiderLite := mkRider "g2" 42 "09:30:00" "10:30:00" 3
def exB1 : RiderLite := { mkRider "b1" 43 "None" "10:00:00" 1 with airport := "SFO" }
def exB2 : RiderLite := { mkRider "b2" 44 "09:00:00" "10:00:00" 1 with airport := "SFO" }
def exC7 : List RiderLite := [exG1, exG2, exB1, exB2]

def exMG : Match :=
  { riders := [exG1, exG2], suggested_time_iso := "2025-06-01T09:45:00",
    terminal := some "T1", bucket_key := some "TO LAX" }

/-- A flight row with time window, airport and bag counts all missing. -/
def exF0 : FlightRow :=
  { user_id := "u1", flight_id := 100, flight_no := none, earliest_time := none,
    latest_time := some "10:00:00", airport := none, to_airport := some true,
    date := some "2025-06-01", terminal := some "Terminal 2", matched := none,
    bag_no := none, bag_no_large := none }

def exSchoolMap : String → Option String :=
  fun u => if u = "u1" then some "UCLA" else none

/-- The rider `fetch_riders` builds from `exF0`: every missing field is
silently defaulted. -/
def exRiderFromF0 : RiderLite :=
  { user_id := "u1", flight_id := 100, flight_no := none, earliest_time := "None",
    latest_time := "10:00:00", airport := "UNKNOWN", to_airport := true,
    date := "2025-06-01", terminal := some "2", matched := false, school := "UCLA",
    bags_no := none, bags_no_large := none }

/-- Riders without a terminal, and one with, for the strict-mode policy. -/
def exN1 : RiderLite := { mkRider "n1" 51 "09:00:00" "10:00:00" 1 with terminal := none }
def exN2 : RiderLite := { mkRider "n2" 52 "09:00:00" "10:00:00" 1 with terminal := none }
def exT1 : RiderLite := mkRider "t1" 53 "09:00:00" "10:00:00" 1

/-- The match the engine produces for Example 1 of the spec. -/
def exMAB : Match :=
  { riders := [exA, exB], suggested_time_iso := "2025-06-01T09:45:00",
    terminal := some "T1", bucket_key := some "TO LAX" }

/-! ## Helper lemmas on the string primitives -/

theorem mk_ne_empty_of_ne_nil (l : List Char) (h : l ≠ []) : String.mk l ≠ "" := by
  intro he
  exact h (congrArg String.data he)

theorem dropWhile_ws_eq_self (l : List Char) (h : ∀ c, l.head? = some c → isPyWS c = false) :
    l.dropWhile isPyWS = l := by
  cases l with
  | nil => rfl
  | cons c t => simp [List.dropWhile_cons, h c rfl]

theorem pyStrip_eq_self (l : List Char) (h1 : ∀ c, l.head? = some c → isPyWS c = false)
    (h2 : ∀ c, l.getLast? = some c → isPyWS c = false) : pyStripList l = l := by
  unfold pyStripList
  rw [dropWhile_ws_eq_self l h1]
  rw [dropWhile_ws_eq_self l.reverse
    (fun c hc => h2 c (by rwa [List.head?_reverse] at hc))]
  exact List.reverse_reverse l

theorem pyUpper_eq_self (l : List Char) (h : ∀ c ∈ l, pyToUpper c = c) : pyUpperList l = l := by
  unfold pyUpperList
  induction l with
  | nil => rfl
  | cons c t ih =>
    simp only [List.map_cons]
    rw [h c (by simp), ih (fun x hx => h x (by simp [hx]))]

theorem pyIsDigit_bounds (c : Char) (h : pyIsDigit c = true) :
    48 ≤ c.toNat ∧ c.toNat ≤ 57 := by
  simpa [pyIsDigit] using h

theorem pyIsDigit_not_ws (c : Char) (h : pyIsDigit c = true) : isPyWS c = false := by
  have := pyIsDigit_bounds c h
  simp only [isPyWS, Bool.or_eq_false_iff, decide_eq_false_iff_not]
  omega

theorem pyIsDigit_toUpper (c : Char) (h : pyIsDigit c = true) : pyToUpper c = c := by
  have := pyIsDigit_bounds c h
  unfold pyToUpper
  rw [if_neg]
  omega

theorem upper_is_not_digit (c : Char) (h : 65 ≤ c.toNat) : pyIsDigit c = false := by
  simp only [pyIsDigit, Bool.and_eq_false_iff, decide_eq_false_iff_not]
  omega

theorem upper_not_ws (c : Char) (h : 65 ≤ c.toNat) : isPyWS c = false := by
  simp only [isPyWS, Bool.or_eq_false_iff, decide_eq_false_iff_not]
  omega

theorem upper_toUpper (c : Char) (h : c.toNat ≤ 90) : pyToUpper c = c := by
  unfold pyToUpper
  rw [if_neg]
  omega

theorem scanDigitRun_digits_acc (d : List Char) (hd : d.all pyIsDigit = true) :
    ∀ acc : List Char, acc ≠ [] → scanDigitRun d true acc = some (acc.reverse ++ d) := by
  induction d with
  | nil =>
    intro acc ha
    have : acc.isEmpty = false := List.isEmpty_eq_false.mpr ha
    simp [scanDigitRun, this]
  | cons c t ih =>
    intro acc ha
    simp only [List.all_cons, Bool.and_eq_true] at hd
    have hae : acc.isEmpty = false := List.isEmpty_eq_false.mpr ha
    simp only [scanDigitRun, hd.1, if_true, hae, Bool.not_false, if_pos]
    rw [ih hd.2 (c :: acc) (by simp)]
    simp

theorem scanDigitRun_digits_start (d : List Char) (hne : d ≠ []) (hd : d.all pyIsDigit = true) :
    scanDigitRun d false [] = some d := by
  cases d with
  | nil => exact absurd rfl hne
  | cons c t =>
    simp only [List.all_cons, Bool.and_eq_true] at hd
    simp only [scanDigitRun, hd.1, if_true, List.isEmpty_nil, Bool.not_true,
      Bool.false_eq_true, if_false, Bool.not_false, if_pos]
    rw [scanDigitRun_digits_acc t hd.2 [c] (by simp)]
    simp

theorem scanDigitRun_digits_noBoundary (d : List Char) (hd : d.all pyIsDigit = true) :
    scanDigitRun d true [] = none := by
  induction d with
  | nil => rfl
  | cons c t ih =>
    simp only [List.all_cons, Bool.and_eq_true] at hd
    simp [scanDigitRun, hd.1, ih hd.2]

/-! ## Helper lemmas on the two terminal normalizers -/

theorem digits_strip_eq_self (d : List Char) (hd : d.all pyIsDigit = true) :
    pyStripList d = d := by
  have hds := List.all_eq_true.mp hd
  exact pyStrip_eq_self d
    (fun c hc => pyIsDigit_not_ws c (hds c (List.mem_of_mem_head? hc)))
    (fun c hc => pyIsDigit_not_ws c (hds c (List.mem_of_mem_getLast? hc)))

theorem digits_upper_eq_self (d : List Char) (hd : d.all pyIsDigit = true) :
    pyUpperList d = d := by
  have hds := List.all_eq_true.mp hd
  exact pyUpper_eq_self d (fun c hc => pyIsDigit_toUpper c (hds c hc))

/-- `normalize_terminal` on a bare digit string returns it unchanged (the
digit run itself, not `"T<n>"`). -/
theorem norm2_digit_list (d : List Char) (hne : d ≠ []) (hd : d.all pyIsDigit = true) :
    normalize_terminal (some (String.mk d)) = String.mk d := by
  simp only [normalize_terminal]
  rw [if_neg (mk_ne_empty_of_ne_nil d hne)]
  rw [show (String.mk d).toList = d from rfl, digits_strip_eq_self d hd,
    digits_upper_eq_self d hd]
  unfold normTermCore
  rw [scanDigitRun_digits_start d hne hd]

/-- `normalize_terminal` on `"TERMINAL " ++ digits` returns the bare
digits. -/
theorem norm2_terminal_prefix (d : List Char) (hne : d ≠ []) (hd : d.all pyIsDigit = true) :
    normalize_terminal (some ("TERMINAL " ++ String.mk d)) = String.mk d := by
  have hds := List.all_eq_true.mp hd
  have hstrip : pyStripList ("TERMINAL ".toList ++ d) = "TERMINAL ".toList ++ d := by
    refine pyStrip_eq_self _ (fun c hc => ?_) (fun c hc => ?_)
    · rw [show ("TERMINAL ".toList ++ d).head? = some 'T' from rfl, Option.some_inj] at hc
      rw [← hc]
      decide
    · rw [List.getLast?_append_of_ne_nil _ hne] at hc
      exact pyIsDigit_not_ws c (hds c (List.mem_of_mem_getLast? hc))
  have hupper : pyUpperList ("TERMINAL ".toList ++ d) = "TERMINAL ".toList ++ d := by
    have h2 := digits_upper_eq_self d hd
    unfold pyUpperList at h2 ⊢
    rw [List.map_append, h2]
    rfl
  have hne2 : ("TERMINAL " ++ String.mk d) ≠ "" := by
    intro he
    have h2 : ("TERMINAL " ++ String.mk d).data = [] := congrArg String.data he
    rw [String.data_append] at h2
    simp at h2
  simp only [normalize_terminal]
  rw [if_neg hne2]
  rw [show ("TERMINAL " ++ String.mk d).toList = "TERMINAL ".toList ++ d from
    String.data_append _ _, hstrip, hupper]
  unfold normTermCore
  rw [show scanDigitRun ("TERMINAL ".toList ++ d) false [] = scanDigitRun d false [] from rfl]
  rw [scanDigitRun_digits_start d hne hd]

/-- `normalize_terminal` passes a single uppercase letter through. -/
theorem norm2_single_upper (c : Char) (h1 : 65 ≤ c.toNat) (h2 : c.toNat ≤ 90) :
    normalize_terminal (some (String.mk [c])) = String.mk [c] := by
  have hnw : isPyWS c = false := upper_not_ws c h1
  have hstrip : pyStripList [c] = [c] := by
    refine pyStrip_eq_self _ (fun x hx => ?_) (fun x hx => ?_) <;>
      · have hx2 : c = x := by simpa using hx
        rw [← hx2]
        exact hnw
  have hupper : pyUpperList [c] = [c] := by
    refine pyUpper_eq_self _ (fun x hx => ?_)
    have hx2 : x = c := by simpa using hx
    rw [hx2]
    exact upper_toUpper c h2
  have hnd : pyIsDigit c = false := upper_is_not_digit c h1
  have hscan : scanDigitRun [c] false [] = none := by
    simp [scanDigitRun, hnd]
  have hsingle : isSingleUpperLetter [c] = true := by
    simp only [isSingleUpperLetter, Bool.and_eq_true, decide_eq_true_eq]
    omega
  simp only [normalize_terminal]
  rw [if_neg (mk_ne_empty_of_ne_nil [c] (by simp))]
  rw [show (String.mk [c]).toList = [c] from rfl, hstrip, hupper]
  unfold normTermCore
  rw [hscan, if_pos hsingle]

theorem pyStartsWith_cons_false (c : Char) (s : List Char) (p : Char) (ps : List Char)
    (h : c.toNat ≠ p.toNat) : pyStartsWith (c :: s) (p :: ps) = false := by
  simp only [pyStartsWith]
  rw [if_neg h]

theorem pyStartsWith_nil_right (l : List Char) : pyStartsWith l [] = true := by
  cases l <;> rfl

/-- No INTL-family pattern occurs in a string of digits and `'T'`s. -/
theorem pySubstr_false_of_digitT (l : List Char)
    (hl : ∀ c ∈ l, pyIsDigit c = true ∨ c.toNat = 84) :
    pySubstr "INTL".toList l = false ∧ pySubstr "INTERNATIONAL".toList l = false ∧
      pySubstr "TBIT".toList l = false := by
  induction l with
  | nil => exact ⟨rfl, rfl, rfl⟩
  | cons c t ih =>
    have hc := hl c (List.mem_cons_self c t)
    have ht : ∀ x ∈ t, pyIsDigit x = true ∨ x.toNat = 84 :=
      fun x hx => hl x (List.mem_cons_of_mem c hx)
    obtain ⟨ih1, ih2, ih3⟩ := ih ht
    have hcI : c.toNat ≠ 73 := by
      rcases hc with h | h
      · have := pyIsDigit_bounds c h
        omega
      · omega
    have hB : ∀ ps : List Char, pyStartsWith t ('B' :: ps) = false := by
      intro ps
      cases t with
      | nil => rfl
      | cons x xs =>
        have hx := ht x (List.mem_cons_self x xs)
        refine pyStartsWith_cons_false x xs 'B' ps ?_
        have hBval : ('B' : Char).toNat = 66 := rfl
        rcases hx with h | h
        · have := pyIsDigit_bounds x h
          omega
        · omega
    refine ⟨?_, ?_, ?_⟩
    · simp only [pySubstr, Bool.or_eq_false_iff]
      refine ⟨?_, ih1⟩
      rw [show "INTL".toList = 'I' :: "NTL".toList from rfl]
      exact pyStartsWith_cons_false c t 'I' _ (by simpa using hcI)
    · simp only [pySubstr, Bool.or_eq_false_iff]
      refine ⟨?_, ih2⟩
      rw [show "INTERNATIONAL".toList = 'I' :: "NTERNATIONAL".toList from rfl]
      exact pyStartsWith_cons_false c t 'I' _ (by simpa using hcI)
    · simp only [pySubstr, Bool.or_eq_false_iff]
      refine ⟨?_, ih3⟩
      rw [show "TBIT".toList = 'T' :: 'B' :: "IT".toList from rfl]
      simp only [pyStartsWith]
      split
      · exact hB _
      · rfl

/-- `normalize_terminal` keeps an already-normalized `"T<digits>"` value
unchanged. -/
theorem norm2_T_digits (d : List Char) (hne : d ≠ []) (hd : d.all pyIsDigit = true) :
    normalize_terminal (some (String.mk ('T' :: d))) = String.mk ('T' :: d) := by
  have hds := List.all_eq_true.mp hd
  have hstrip : pyStripList ('T' :: d) = 'T' :: d := by
    refine pyStrip_eq_self _ (fun c hc => ?_) (fun c hc => ?_)
    · rw [show ('T' :: d).head? = some 'T' from rfl, Option.some_inj] at hc
      rw [← hc]
      decide
    · rw [show ('T' :: d) = ['T'] ++ d from rfl, List.getLast?_append_of_ne_nil _ hne] at hc
      exact pyIsDigit_not_ws c (hds c (List.mem_of_mem_getLast? hc))
  have hupper : pyUpperList ('T' :: d) = 'T' :: d := by
    have h2 := digits_upper_eq_self d hd
    unfold pyUpperList at h2 ⊢
    simp only [List.map_cons, h2]
    rfl
  have hscan : scanDigitRun ('T' :: d) false [] = none := by
    rw [show scanDigitRun ('T' :: d) false [] = scanDigitRun d true [] from rfl]
    exact scanDigitRun_digits_noBoundary d hd
  have hsingle : isSingleUpperLetter ('T' :: d) = false := by
    cases d with
    | nil => exact absurd rfl hne
    | cons x xs => rfl
  have hsub := pySubstr_false_of_digitT ('T' :: d) (by
    intro x hx
    rcases List.mem_cons.mp hx with h | h
    · right
      rw [h]
      rfl
    · exact Or.inl (hds x h))
  simp only [normalize_terminal]
  rw [if_neg (mk_ne_empty_of_ne_nil _ (by simp))]
  rw [show (String.mk ('T' :: d)).toList = 'T' :: d from rfl, hstrip, hupper]
  unfold normTermCore
  rw [hscan, if_neg (by rw [hsingle]; exact Bool.false_ne_true)]
  rw [if_neg]
  rw [hsub.1, hsub.2.1, hsub.2.2]
  simp

/-- `_normalize_terminal` keeps an already-normalized `"T<digits>"` value
unchanged. -/
theorem normRB_T_digits (d : List Char) (hne : d ≠ []) (hd : d.all pyIsDigit = true) :
    RB_normalize_terminal (some (String.mk ('T' :: d))) = some (String.mk ('T' :: d)) := by
  have hds := List.all_eq_true.mp hd
  have hstrip : pyStripList ('T' :: d) = 'T' :: d := by
    refine pyStrip_eq_self _ (fun c hc => ?_) (fun c hc => ?_)
    · rw [show ('T' :: d).head? = some 'T' from rfl, Option.some_inj] at hc
      rw [← hc]
      decide
    · rw [show ('T' :: d) = ['T'] ++ d from rfl, List.getLast?_append_of_ne_nil _ hne] at hc
      exact pyIsDigit_not_ws c (hds c (List.mem_of_mem_getLast? hc))
  have hupper : pyUpperList ('T' :: d) = 'T' :: d := by
    have h2 := digits_upper_eq_self d hd
    unfold pyUpperList at h2 ⊢
    simp only [List.map_cons, h2]
    rfl
  have hc1 : pyStartsWith ('T' :: d) "TERMINAL ".toList = false := by
    rw [show "TERMINAL ".toList = 'T' :: "ERMINAL ".toList from rfl]
    simp only [pyStartsWith, if_pos]
    cases d with
    | nil => exact absurd rfl hne
    | cons x xs =>
      have hb := pyIsDigit_bounds x (hds x (List.mem_cons_self x xs))
      rw [show "ERMINAL ".toList = 'E' :: "RMINAL ".toList from rfl]
      refine pyStartsWith_cons_false x xs 'E' _ ?_
      have : ('E' : Char).toNat = 69 := rfl
      omega
  have hc2 : pyIsDigitStr ('T' :: d) = false := by
    simp [pyIsDigitStr, show pyIsDigit 'T' = false from rfl]
  have hc3 : pyIsDigitStr d = true := by
    simp [pyIsDigitStr, hd, List.isEmpty_eq_false.mpr hne]
  simp only [RB_normalize_terminal]
  rw [show (String.mk ('T' :: d)).toList = 'T' :: d from rfl, hupper, hstrip]
  unfold RBNormCore
  rw [if_neg (by rw [hc1]; exact fun h => Bool.false_ne_true h.1)]
  rw [if_neg (by rw [hc2]; exact Bool.false_ne_true)]
  rw [if_pos]
  constructor
  · rw [show pyStartsWith ('T' :: d) ['T'] = pyStartsWith d [] from rfl]
    exact pyStartsWith_nil_right d
  · rw [show ('T' :: d).drop 1 = d from rfl]
    exact hc3

/-- `_normalize_terminal` passes a single uppercase letter through. -/
theorem normRB_single_upper (c : Char) (h1 : 65 ≤ c.toNat) (h2 : c.toNat ≤ 90) :
    RB_normalize_terminal (some (String.mk [c])) = some (String.mk [c]) := by
  have hnw : isPyWS c = false := upper_not_ws c h1
  have hstrip : pyStripList [c] = [c] := by
    refine pyStrip_eq_self _ (fun x hx => ?_) (fun x hx => ?_) <;>
      · have hx2 : c = x := by simpa using hx
        rw [← hx2]
        exact hnw
  have hupper : pyUpperList [c] = [c] := by
    refine pyUpper_eq_self _ (fun x hx => ?_)
    have hx2 : x = c := by simpa using hx
    rw [hx2]
    exact upper_toUpper c h2
  have hnd : pyIsDigit c = false := upper_is_not_digit c h1
  have hc1 : pyStartsWith [c] "TERMINAL ".toList = false := by
    rw [show "TERMINAL ".toList = 'T' :: "ERMINAL ".toList from rfl]
    simp only [pyStartsWith]
    split
    · rfl
    · rfl
  have hc2 : pyIsDigitStr [c] = false := by
    simp [pyIsDigitStr, hnd]
  simp only [RB_normalize_terminal]
  rw [show (String.mk [c]).toList = [c] from rfl, hupper, hstrip]
  unfold RBNormCore
  rw [if_neg (by rw [hc1]; exact fun h => Bool.false_ne_true h.1)]
  rw [if_neg (by rw [hc2]; exact Bool.false_ne_true)]
  rw [if_neg (by
    rw [show ([c] : List Char).drop 1 = [] from rfl]
    exact fun h => Bool.false_ne_true h.2)]

/-! ## Helper lemmas on the bucketizer -/

theorem mem_firstDedup {κ : Type} [DecidableEq κ] :
    ∀ (l seen : List κ) (k : κ), k ∈ firstDedup seen l ↔ k ∈ l ∧ k ∉ seen := by
  intro l
  induction l with
  | nil => simp [firstDedup]
  | cons a t ih =>
    intro seen k
    by_cases ha : a ∈ seen
    · rw [show firstDedup seen (a :: t) = firstDedup seen t from by
        simp [firstDedup, ha]]
      rw [ih]
      constructor
      · rintro ⟨h1, h2⟩
        exact ⟨List.mem_cons_of_mem a h1, h2⟩
      · rintro ⟨h1, h2⟩
        rcases List.mem_cons.mp h1 with rfl | h1
        · exact absurd ha h2
        · exact ⟨h1, h2⟩
    · rw [show firstDedup seen (a :: t) = a :: firstDedup (a :: seen) t from by
        simp [firstDedup, ha]]
      constructor
      · intro h
        rcases List.mem_cons.mp h with rfl | h
        · exact ⟨List.mem_cons_self _ _, ha⟩
        · rw [ih] at h
          refine ⟨List.mem_cons_of_mem a h.1, fun hk => h.2 (List.mem_cons_of_mem a hk)⟩
      · rintro ⟨h1, h2⟩
        rcases List.mem_cons.mp h1 with rfl | h1
        · exact List.mem_cons_self _ _
        · by_cases hk : k = a
          · subst hk
            exact List.mem_cons_self _ _
          · refine List.mem_cons_of_mem a ?_
            rw [ih]
            exact ⟨h1, fun hm => (List.mem_cons.mp hm).elim hk h2⟩

theorem nodup_firstDedup {κ : Type} [DecidableEq κ] :
    ∀ (l seen : List κ), (firstDedup seen l).Nodup := by
  intro l
  induction l with
  | nil => intro seen; simp [firstDedup]
  | cons a t ih =>
    intro seen
    by_cases ha : a ∈ seen
    · rw [show firstDedup seen (a :: t) = firstDedup seen t from by simp [firstDedup, ha]]
      exact ih seen
    · rw [show firstDedup seen (a :: t) = a :: firstDedup (a :: seen) t from by
        simp [firstDedup, ha]]
      rw [List.nodup_cons]
      refine ⟨fun hm => ?_, ih (a :: seen)⟩
      rw [mem_firstDedup] at hm
      exact hm.2 (List.mem_cons_self a seen)

theorem count_filter_key {α κ : Type} [DecidableEq α] [DecidableEq κ]
    (key : α → κ) (a : α) (k : κ) :
    ∀ l : List α, List.count a (l.filter (fun r => decide (key r = k))) =
      if key a = k then List.count a l else 0 := by
  intro l
  induction l with
  | nil => simp
  | cons b t ih =>
    by_cases hb : key b = k
    · rw [List.filter_cons_of_pos (by simp [hb])]
      rw [List.count_cons, List.count_cons, ih]
      by_cases hak : key a = k
      · simp [hak]
      · have hba : (b == a) = false := by
          simp only [beq_eq_false_iff_ne]
          intro he
          exact hak (he ▸ hb)
        simp [hak, hba]
    · rw [List.filter_cons_of_neg (by simp [hb])]
      rw [ih, List.count_cons]
      by_cases hak : key a = k
      · have hba : (b == a) = false := by
          simp only [beq_eq_false_iff_ne]
          intro he
          exact hb (he ▸ hak)
        simp [hak, hba]
      · simp [hak]

theorem sum_indicator_single {κ : Type} [DecidableEq κ] (x : κ) (v : Nat) :
    ∀ ks : List κ, ks.Nodup → x ∈ ks →
      (ks.map (fun k => if x = k then v else 0)).sum = v := by
  intro ks
  induction ks with
  | nil => intro _ h; cases h
  | cons a t ih =>
    intro hnd hx
    rw [List.nodup_cons] at hnd
    rcases List.mem_cons.mp hx with rfl | hx2
    · simp only [List.map_cons, List.sum_cons, if_pos rfl]
      have hz : (t.map (fun k => if x = k then v else 0)).sum = 0 := by
        apply List.sum_eq_zero
        intro y hy
        rw [List.mem_map] at hy
        obtain ⟨k, hk, rfl⟩ := hy
        rw [if_neg]
        intro he
        exact hnd.1 (he ▸ hk)
      rw [hz]
      simp
    · have hxa : x ≠ a := fun he => hnd.1 (he ▸ hx2)
      simp only [List.map_cons, List.sum_cons, if_neg hxa]
      rw [ih hnd.2 hx2]
      simp

/-- The buckets of a one-pass group-by concatenate back to a permutation
of the input. -/
theorem groupByKey_flatten_perm {α κ : Type} [DecidableEq α] [DecidableEq κ]
    (key : α → κ) (l : List α) :
    (((groupByKey key l).map Prod.snd).flatten).Perm l := by
  rw [List.perm_iff_count]
  intro a
  unfold groupByKey
  rw [List.map_map]
  rw [show (Prod.snd ∘ fun k => (k, l.filter (fun r => decide (key r = k)))) =
    fun k => l.filter (fun r => decide (key r = k)) from rfl]
  rw [List.count_flatten, List.map_map]
  rw [show (List.count a ∘ fun k => l.filter (fun r => decide (key r = k))) =
    fun k => if key a = k then List.count a l else 0 from
    funext (fun k => count_filter_key key a k l)]
  by_cases hal : a ∈ l
  · exact sum_indicator_single (key a) (List.count a l) _ (nodup_firstDedup _ _)
      ((mem_firstDedup _ _ _).mpr ⟨List.mem_map_of_mem key hal, by simp⟩)
  · rw [List.count_eq_zero.mpr hal]
    apply List.sum_eq_zero
    intro y hy
    rw [List.mem_map] at hy
    obtain ⟨k, _, rfl⟩ := hy
    exact ite_self 0

/-- Buckets with distinct keys are pairwise disjoint. -/
theorem groupByKey_pairwise_disjoint {α κ : Type} [DecidableEq α] [DecidableEq κ]
    (key : α → κ) (l : List α) :
    List.Pairwise (fun b1 b2 => ∀ r, r ∈ b1.2 → r ∉ b2.2) (groupByKey key l) := by
  unfold groupByKey
  rw [List.pairwise_map]
  refine (nodup_firstDedup (l.map key) []).imp ?_
  intro k1 k2 hne r hr1 hr2
  rw [List.mem_filter] at hr1 hr2
  exact hne ((of_decide_eq_true hr1.2) ▸ (of_decide_eq_true hr2.2))

/-- The per-bucket loop of `run` has no exception handling: if any bucket
in the list fails, the whole traversal returns `none`. -/
theorem runLoop_none_of_mem (k : String) (bs : List RiderLite) :
    ∀ (L : List (String × List RiderLite)) (ms : List Match) (ls : List RiderLite),
      (k, bs) ∈ L → match_bucket bs (some k) = none → runLoop L ms ls = none := by
  intro L
  induction L with
  | nil =>
    intro ms ls h _
    cases h
  | cons p rest ih =>
    intro ms ls hmem hfail
    obtain ⟨name, rs⟩ := p
    rcases List.mem_cons.mp hmem with heq | hmem2
    · obtain ⟨rfl, rfl⟩ := Prod.mk.injEq .. ▸ heq
      simp only [runLoop, hfail]
    · simp only [runLoop]
      cases hmb : match_bucket rs (some name) with
      | none => rfl
      | some pr => exact ih (ms ++ pr.1) (ls ++ pr.2) hmem2 hfail

/-- Reduction of `_is_valid_group` once the intersection is known. -/
theorem _is_valid_group_eq (members : List RiderLite) (s e mins : Int)
    (h : _intersection members = some (s, e, mins)) :
    _is_valid_group members =
      if ¬(2 ≤ members.length ∧ members.length ≤ 4) then some false
      else if mins ≤ 0 then some false
      else if _bags_total members > NUM_BAGS then some false
      else if TERMINAL_MODE = "strict" ∧ ¬allSame (coercedTerms members) = true then some false
      else some true := by
  unfold _is_valid_group
  rw [h]

/-! ## The claims -/

/-- C1 (code bug): the spec says expansion draws extra members only from
candidates not already used by a previously accepted or expanded group, so
finalized groups are disjoint.  The code's `_expand_group` excludes only
current group members, so on the five-rider bucket `exC1` the rider `exR0`
(u1) is placed both in the first group (expanded seed (u1,u2)) and in the
second group (expansion of seed (u3,u4)). -/
theorem C1_expand_reuses_used_rider :
    match_bucket exC1 none = some ([exM1, exM2], []) ∧
    exR0 ∈ exM1.riders ∧ exR0 ∈ exM2.riders := by
  refine ⟨by decide, by decide, by decide⟩

/-- C2 (counterexample): a pair overlapping by 30 seconds satisfies every
condition of the claim — size 2, `max earliest < min latest`, bags within
capacity, identical terminals — yet `_is_valid_group` rejects it, because
the code requires a whole floored minute of overlap. -/
theorem C2_counterexample :
    _is_valid_group [exX, exY] = some false ∧
    _intersection [exX, exY] = some (1748769000000000, 1748769030000000, 0) ∧
    (1748769000000000 : Int) < 1748769030000000 ∧
    ([exX, exY] : List RiderLite).length = 2 ∧
    _bags_total [exX, exY] ≤ NUM_BAGS ∧
    allSame (coercedTerms [exX, exY]) = true := by
  decide

/-- C2 (amended): the hard validity predicate holds exactly when the group
size is between 2 and 4, the floored whole-minute length of the time
intersection is at least 1 (not merely `max earliest < min latest`), total
bags are at most the capacity of 10, and in strict mode the member
terminal values — absent coerced to the empty string — are all
identical. -/
theorem C2_valid_group_characterization (members : List RiderLite) (s e mins : Int)
    (h : _intersection members = some (s, e, mins)) :
    _is_valid_group members = some true ↔
      (2 ≤ members.length ∧ members.length ≤ 4 ∧ 1 ≤ mins ∧
        _bags_total members ≤ NUM_BAGS ∧ allSame (coercedTerms members) = true) := by
  rw [_is_valid_group_eq members s e mins h]
  by_cases hlen : 2 ≤ members.length ∧ members.length ≤ 4
  · rw [if_neg (not_not_intro hlen)]
    by_cases hm : mins ≤ 0
    · rw [if_pos hm]
      constructor
      · intro hco
        simp at hco
      · rintro ⟨-, -, h1, -, -⟩
        omega
    · rw [if_neg hm]
      by_cases hbg : _bags_total members > NUM_BAGS
      · rw [if_pos hbg]
        constructor
        · intro hco
          simp at hco
        · rintro ⟨-, -, -, h4, -⟩
          omega
      · rw [if_neg hbg]
        by_cases hterm : TERMINAL_MODE = "strict" ∧ ¬allSame (coercedTerms members) = true
        · rw [if_pos hterm]
          constructor
          · intro hco
            simp at hco
          · rintro ⟨-, -, -, -, h5⟩
            exact absurd h5 hterm.2
        · rw [if_neg hterm]
          constructor
          · intro _
            refine ⟨hlen.1, hlen.2, by omega, by omega, ?_⟩
            exact not_not.mp (not_and.mp hterm rfl)
          · intro _
            rfl
  · rw [if_pos hlen]
    constructor
    · intro hco
      simp at hco
    · rintro ⟨h1, h2, -, -, -⟩
      exact absurd ⟨h1, h2⟩ hlen

/-- C2 (witness): Example 1's pair is valid, via the characterization. -/
theorem C2_witness : _is_valid_group [exA, exB] = some true :=
  (C2_valid_group_characterization [exA, exB] 1748770200000000 1748772000000000 30
    (by decide)).mpr ⟨by decide, by decide, by decide, by decide, by decide⟩

/-- C3 (counterexample): the claim says `"TERMINAL 2"` normalizes to
`"T2"`; `normalize_terminal` returns the bare digit run `"2"`. -/
theorem C3_counterexample :
    normalize_terminal (some "TERMINAL 2") = "2" ∧ ("2" : String) ≠ "T2" := by
  refine ⟨by decide, by decide⟩

/-- C3 (amended): `normalize_terminal` returns `"UNKNOWN"` on absent or
empty input; the bare digit run `"<n>"` (not `"T<n>"`) for `"TERMINAL <n>"`
or a bare digit string; a single uppercase letter unchanged; `"INTL"` for
inputs containing INTL / INTERNATIONAL / TBIT when no standalone digit run
and no single letter matched first; and otherwise the stripped, uppercased
input. -/
theorem C3_normalize_terminal_cases :
    normalize_terminal none = "UNKNOWN" ∧
    normalize_terminal (some "") = "UNKNOWN" ∧
    (∀ d : List Char, d ≠ [] → d.all pyIsDigit = true →
      normalize_terminal (some (String.mk d)) = String.mk d ∧
      normalize_terminal (some ("TERMINAL " ++ String.mk d)) = String.mk d) ∧
    (∀ c : Char, 65 ≤ c.toNat → c.toNat ≤ 90 →
      normalize_terminal (some (String.mk [c])) = String.mk [c]) ∧
    (∀ s : String, s ≠ "" →
      scanDigitRun (pyUpperList (pyStripList s.toList)) false [] = none →
      isSingleUpperLetter (pyUpperList (pyStripList s.toList)) = false →
      (pySubstr "INTL".toList (pyUpperList (pyStripList s.toList)) ||
        pySubstr "INTERNATIONAL".toList (pyUpperList (pyStripList s.toList)) ||
        pySubstr "TBIT".toList (pyUpperList (pyStripList s.toList))) = true →
      normalize_terminal (some s) = "INTL") ∧
    (∀ s : String, s ≠ "" →
      scanDigitRun (pyUpperList (pyStripList s.toList)) false [] = none →
      isSingleUpperLetter (pyUpperList (pyStripList s.toList)) = false →
      (pySubstr "INTL".toList (pyUpperList (pyStripList s.toList)) ||
        pySubstr "INTERNATIONAL".toList (pyUpperList (pyStripList s.toList)) ||
        pySubstr "TBIT".toList (pyUpperList (pyStripList s.toList))) = false →
      normalize_terminal (some s) = String.mk (pyUpperList (pyStripList s.toList))) := by
  refine ⟨rfl, rfl, ?_, norm2_single_upper, ?_, ?_⟩
  · intro d h1 h2
    exact ⟨norm2_digit_list d h1 h2, norm2_terminal_prefix d h1 h2⟩
  · intro s hs hscan hsingle hsub
    simp only [normalize_terminal]
    rw [if_neg hs]
    unfold normTermCore
    rw [hscan, if_neg (by rw [hsingle]; exact Bool.false_ne_true), if_pos hsub]
  · intro s hs hscan hsingle hsub
    simp only [normalize_terminal]
    rw [if_neg hs]
    unfold normTermCore
    rw [hscan, if_neg (by rw [hsingle]; exact Bool.false_ne_true),
      if_neg (by rw [hsub]; exact Bool.false_ne_true)]

/-- C3 (witness): the amended cases evaluated at concrete terminals. -/
theorem C3_witness :
    normalize_terminal (some (String.mk ['7'])) = String.mk ['7'] ∧
    normalize_terminal (some ("TERMINAL " ++ String.mk ['2'])) = String.mk ['2'] ∧
    normalize_terminal (some (String.mk ['B'])) = String.mk ['B'] ∧
    normalize_terminal (some "TBIT") = "INTL" ∧
    normalize_terminal (some "WEST GATE") =
      String.mk (pyUpperList (pyStripList ("WEST GATE" : String).toList)) :=
  ⟨(C3_normalize_terminal_cases.2.2.1 ['7'] (by decide) (by decide)).1,
    (C3_normalize_terminal_cases.2.2.1 ['2'] (by decide) (by decide)).2,
    C3_normalize_terminal_cases.2.2.2.1 'B' (by decide) (by decide),
    C3_normalize_terminal_cases.2.2.2.2.1 "TBIT" (by decide) (by decide) (by decide) (by decide),
    C3_normalize_terminal_cases.2.2.2.2.2 "WEST GATE" (by decide) (by decide) (by decide)
      (by decide)⟩

/-- C4 (counterexample): for a one-minute window the midpoint falls on
second 30; the claim's "truncated to whole seconds" value is 09:00:30, but
the code zeroes the seconds field (`replace(second=0, microsecond=0)`) and
suggests 09:00:00. -/
theorem C4_counterexample :
    (_intersection [exP, exQ]).map
        (fun t => isoformatMicros (t.1 + halfTimedelta (t.2.1 - t.1))) =
      some "2025-06-01T09:00:30" ∧
    (_group_to_match [exP, exQ] none).map Match.suggested_time_iso =
      some "2025-06-01T09:00:00" ∧
    ("2025-06-01T09:00:00" : String) ≠ "2025-06-01T09:00:30" := by
  refine ⟨by decide, by decide, by decide⟩

/-- C4 (amended): the suggested timestamp is the midpoint of the
intersection window truncated to the whole minute (seconds and
microseconds zeroed), not to whole seconds; the 09:45 example of the spec
holds as stated. -/
theorem C4_suggested_time_minute_truncated :
    (∀ (group : List RiderLite) (bk : Option String) (s e mins : Int),
      _intersection group = some (s, e, mins) →
      ∃ m, _group_to_match group bk = some m ∧ m.riders = group ∧
        m.suggested_time_iso = isoformatMicros (floorToMinute (s + halfTimedelta (e - s)))) ∧
    match_bucket [exA, exB] (some "TO LAX") = some ([exMAB], []) := by
  constructor
  · intro group bk s e mins h
    unfold _group_to_match
    rw [h]
    exact ⟨_, rfl, rfl, rfl⟩
  · decide

/-- C4 (witness): the universal part applied to Example 1's pair. -/
theorem C4_witness :
    ∃ m, _group_to_match [exA, exB] none = some m ∧ m.riders = [exA, exB] ∧
      m.suggested_time_iso = isoformatMicros (floorToMinute (1748770200000000 +
        halfTimedelta (1748772000000000 - 1748770200000000))) :=
  C4_suggested_time_minute_truncated.1 [exA, exB] none 1748770200000000 1748772000000000 30
    (by decide)

/-- C5: the engine is a pure function of the candidate sequence, so two
runs over the same records in the same order return identical groups in
identical order and identical leftovers. -/
theorem C5_engine_deterministic (rs1 rs2 : List RiderLite) (h : rs1 = rs2) :
    run_match rs1 = run_match rs2 ∧ make_buckets rs1 = make_buckets rs2 ∧
      (∀ bk, match_bucket rs1 bk = match_bucket rs2 bk) := by
  subst h
  exact ⟨rfl, rfl, fun _ => rfl⟩

/-- C5 (witness): two runs on the five-rider bucket coincide. -/
theorem C5_witness :
    run_match exC1 = run_match exC1 ∧ make_buckets exC1 = make_buckets exC1 ∧
      (∀ bk, match_bucket exC1 bk = match_bucket exC1 bk) :=
  C5_engine_deterministic exC1 exC1 rfl

/-- C6 (counterexample): a flight row with time window, bag counts and
airport all missing is not rejected: `fetch_riders` builds a rider whose
earliest time is the string `"None"`, airport is `"UNKNOWN"`, and bag
counts stay absent; the bogus time only fails later, inside the matcher's
datetime parse.  No `ValidationError` exists anywhere in the code. -/
theorem C6_counterexample :
    build_riders [exF0] exSchoolMap = [exRiderFromF0] ∧
    fromisoformat (exRiderFromF0.date ++ "T" ++ exRiderFromF0.earliest_time) = none := by
  refine ⟨by decide, by decide⟩

/-- C6 (amended): every flight row whose school lookup succeeds (and is
non-empty) yields a rider — missing fields are silently defaulted
(`str(None)` time strings, `"UNKNOWN"` airport, absent bag counts), never
rejected; only rows without a school are dropped. -/
theorem C6_missing_fields_defaulted (f : FlightRow) (m : String → Option String)
    (sch : String) (h1 : m f.user_id = some sch) (h2 : sch ≠ "") :
    build_riders [f] m =
      [{ user_id := f.user_id, flight_id := f.flight_id, flight_no := f.flight_no,
         earliest_time := pyStr f.earliest_time, latest_time := pyStr f.latest_time,
         airport := normalize_airport f.airport, to_airport := f.to_airport.getD false,
         date := pyStr f.date, terminal := some (normalize_terminal f.terminal),
         matched := f.matched.getD false, school := sch,
         bags_no := f.bag_no, bags_no_large := f.bag_no_large }] := by
  unfold build_riders
  rw [List.filterMap_cons]
  rw [show (List.filterMap _ ([] : List FlightRow)) = [] from rfl]
  simp only [h1]
  rw [if_neg h2]

/-- C6 (witness): the amended statement applied to the deficient row. -/
theorem C6_witness :
    build_riders [exF0] exSchoolMap =
      [{ user_id := exF0.user_id, flight_id := exF0.flight_id, flight_no := exF0.flight_no,
         earliest_time := pyStr exF0.earliest_time, latest_time := pyStr exF0.latest_time,
         airport := normalize_airport exF0.airport, to_airport := exF0.to_airport.getD false,
         date := pyStr exF0.date, terminal := some (normalize_terminal exF0.terminal),
         matched := exF0.matched.getD false, school := "UCLA",
         bags_no := exF0.bag_no, bags_no_large := exF0.bag_no_large }] :=
  C6_missing_fields_defaulted exF0 exSchoolMap "UCLA" (by decide) (by decide)

/-- C7 (counterexample): with two buckets, the TO SFO bucket holding a
rider whose earliest time is the defaulted `"None"` string, the whole run
returns nothing — the healthy TO LAX bucket's match (exhibited in the
second conjunct) is lost, instead of only the failing bucket degrading to
leftovers. -/
theorem C7_counterexample :
    run_match exC7 = none ∧
    match_bucket [exG1, exG2] (some "TO LAX") = some ([exMG], []) := by
  refine ⟨by decide, by decide⟩

/-- C7 (amended): there is no exception barrier between buckets — if
matching any one bucket raises, the per-bucket loop of `run` propagates
the failure and the entire run aborts, returning no results for any
bucket. -/
theorem C7_bucket_failure_aborts_run (rs : List RiderLite) (k : String)
    (bs : List RiderLite) (hmem : (k, bs) ∈ make_buckets rs)
    (hfail : match_bucket bs (some k) = none) :
    run_match rs = none :=
  runLoop_none_of_mem k bs (make_buckets rs) [] [] hmem hfail

/-- C7 (witness): the amended statement applied to the two-bucket run. -/
theorem C7_witness : run_match exC7 = none :=
  C7_bucket_failure_aborts_run exC7 "TO SFO" [exB1, exB2] (by decide) (by decide)

/-- C8: both bucketizers partition their input exactly — concatenating
all buckets gives a permutation of the input (no candidate lost, none
duplicated), and buckets are pairwise disjoint. -/
theorem C8_buckets_partition (rs : List RiderLite) (rbs : List RBRider) :
    (((make_buckets rs).map Prod.snd).flatten).Perm rs ∧
    List.Pairwise (fun b1 b2 => ∀ r, r ∈ b1.2 → r ∉ b2.2) (make_buckets rs) ∧
    (((partition_riders rbs).map Prod.snd).flatten).Perm rbs ∧
    List.Pairwise (fun b1 b2 => ∀ r, r ∈ b1.2 → r ∉ b2.2) (partition_riders rbs) :=
  ⟨groupByKey_flatten_perm _ _, groupByKey_pairwise_disjoint _ _,
    groupByKey_flatten_perm _ _, groupByKey_pairwise_disjoint _ _⟩

/-- C9: in strict mode an absent terminal acts as a concrete value — a
pair both lacking a terminal passes the hard validity predicate (other
conditions granted), while a pair with one (non-empty) terminal present
and one absent fails it. -/
theorem C9_strict_absent_terminal (a b : RiderLite) (s e mins : Int)
    (h : _intersection [a, b] = some (s, e, mins)) (hm : 1 ≤ mins)
    (hb : _bags_total [a, b] ≤ NUM_BAGS) :
    (a.terminal = none → b.terminal = none → _is_valid_group [a, b] = some true) ∧
    (∀ t, a.terminal = some t → t ≠ "" → b.terminal = none →
      _is_valid_group [a, b] = some false) := by
  have hlen : ¬¬(2 ≤ ([a, b] : List RiderLite).length ∧
      ([a, b] : List RiderLite).length ≤ 4) := not_not_intro (by simp)
  have hmins : ¬(mins ≤ 0) := by omega
  have hbags : ¬(_bags_total [a, b] > NUM_BAGS) := by omega
  constructor
  · intro ha hbn
    have hsame : allSame (coercedTerms [a, b]) = true := by
      simp [coercedTerms, allSame, ha, hbn]
    rw [_is_valid_group_eq [a, b] s e mins h]
    rw [if_neg hlen, if_neg hmins, if_neg hbags]
    rw [if_neg (fun hc => hc.2 hsame)]
  · intro t ha ht hbn
    have hsame : allSame (coercedTerms [a, b]) = false := by
      simp only [coercedTerms, allSame, ha, hbn, List.map_cons, List.map_nil,
        Option.getD_some, Option.getD_none, List.all_cons, List.all_nil, Bool.and_true]
      exact decide_eq_false (fun he => ht he.symm)
    rw [_is_valid_group_eq [a, b] s e mins h]
    rw [if_neg hlen, if_neg hmins, if_neg hbags]
    rw [if_pos ⟨rfl, by rw [hsame]; exact Bool.false_ne_true⟩]

/-- C9 (witness): two absent-terminal riders form a valid pair; a "T1"
rider with an absent-terminal rider is invalid. -/
theorem C9_witness :
    _is_valid_group [exN1, exN2] = some true ∧
    _is_valid_group [exT1, exN2] = some false :=
  ⟨(C9_strict_absent_terminal exN1 exN2 1748768400000000 1748772000000000 60
      (by decide) (by decide) (by decide)).1 rfl rfl,
    (C9_strict_absent_terminal exT1 exN2 1748768400000000 1748772000000000 60
      (by decide) (by decide) (by decide)).2 "T1" rfl (by decide) rfl⟩

/-- C10 (counterexample): the two normalizers disagree: on
`"TERMINAL 2"` the RuleBased2 normalizer returns `"2"`, the RuleBased one
`"T2"`; on absent input they return `"UNKNOWN"` and `None`
respectively. -/
theorem C10_counterexample :
    normalize_terminal (some "TERMINAL 2") = "2" ∧
    RB_normalize_terminal (some "TERMINAL 2") = some "T2" ∧
    normalize_terminal none = "UNKNOWN" ∧
    RB_normalize_terminal none = none ∧
    (some "T2" : Option String) ≠ some "2" := by
  refine ⟨by decide, by decide, by decide, by decide, by decide⟩

/-- C10 (amended): the two normalizers agree on inputs that are already in
normalized form — `"T<digits>"` strings and single uppercase letters are
returned unchanged by both — but differ on `TERMINAL <n>` phrasing, bare
digit strings, INTL-family strings, and absent input. -/
theorem C10_normalizers_agree_on_normalized_forms :
    (∀ d : List Char, d ≠ [] → d.all pyIsDigit = true →
      normalize_terminal (some (String.mk ('T' :: d))) = String.mk ('T' :: d) ∧
      RB_normalize_terminal (some (String.mk ('T' :: d))) = some (String.mk ('T' :: d))) ∧
    (∀ c : Char, 65 ≤ c.toNat → c.toNat ≤ 90 →
      normalize_terminal (some (String.mk [c])) = String.mk [c] ∧
      RB_normalize_terminal (some (String.mk [c])) = some (String.mk [c])) :=
  ⟨fun d h1 h2 => ⟨norm2_T_digits d h1 h2, normRB_T_digits d h1 h2⟩,
    fun c h1 h2 => ⟨norm2_single_upper c h1 h2, normRB_single_upper c h1 h2⟩⟩

/-- C10 (witness): agreement at `"T4"` and `"A"`. -/
theorem C10_witness :
    (normalize_terminal (some (String.mk ['T', '4'])) = String.mk ['T', '4'] ∧
      RB_normalize_terminal (some (String.mk ['T', '4'])) = some (String.mk ['T', '4'])) ∧
    (normalize_terminal (some (String.mk ['A'])) = String.mk ['A'] ∧
      RB_normalize_terminal (some (String.mk ['A'])) = some (String.mk ['A'])) :=
  ⟨C10_normalizers_agree_on_normalized_forms.1 ['4'] (by decide) (by decide),
    C10_normalizers_agree_on_normalized_forms.2 'A' (by decide) (by decide)⟩

end PickupML

